import Mathlib

/-!
Verification development for the Agency orchestration core.

The repository ships the demo driver `demo_orchestrator.py`, which exercises the
orchestration engine (`tools.orchestrator.scheduler` and `tools.telemetry.aggregator`).
The engine modules themselves are not part of the packaged sources, so the scheduler,
retry policy, event bus and aggregator below are modelled from the specification
(`spec.md`), while data shapes visible in the demo driver (notably the `TaskSpec`
constructor's keyword arguments) are taken from the demo source itself.

Design of the embedding:
* the retry/backoff policy is a pure function on rationals, with the uniform jitter
  draw made an explicit argument `u` constrained to `[0, jitter]`;
* the scheduler is a guarded small-step transition function on an explicit state
  (task records, event bus, logical clock); worker behaviour and scheduling
  nondeterminism are supplied externally as a list of commands, so every theorem
  quantifying over command lists covers all possible interleavings and worker
  outcomes; a no-op results when a command's guard does not hold;
* the aggregator is a pure function over an event list.
-/

namespace Agency

/-- Terminal status of a task: `success`, `failed` or `timeout`. -/
inductive Terminal
  | success
  | failed
  | timeout
deriving DecidableEq, Inhabited

/-- Modelled from the spec: the `backoff` strategy enumeration; this design
specifies `exp` (exponential). -/
inductive Backoff
  | exp
deriving DecidableEq, Inhabited

/-- Modelled from the spec: `RetryPolicy` with `max_attempts` (at least 1),
`backoff`, `base_delay_s` (at least 0) and `jitter` (fraction in `[0,1)`).
Delays are embedded as rationals. -/
structure RetryPolicy where
  max_attempts : Nat
  backoff : Backoff := Backoff.exp
  base_delay_s : ℚ := 0
  jitter : ℚ := 0
deriving DecidableEq, Inhabited

/-- Modelled from the spec: `should_retry(attempt, policy)` is true iff
`attempt < policy.max_attempts`, where `attempt` is the number of attempts
already made. -/
def should_retry (attempt : Nat) (policy : RetryPolicy) : Bool :=
  attempt < policy.max_attempts

/-- Modelled from the spec: `next_delay(attempt, policy)` for `backoff = exp` is
`base_delay_s * 2^(attempt-1)` multiplied by `(1 + u)` where `u` is the uniform
random draw from `[0, jitter)`; the draw is made an explicit argument here. -/
def next_delay (attempt : Nat) (policy : RetryPolicy) (u : ℚ) : ℚ :=
  match policy.backoff with
  | Backoff.exp => policy.base_delay_s * 2 ^ (attempt - 1) * (1 + u)

/-- C5: `should_retry(attempt, policy)` returns true iff
`attempt < policy.max_attempts`, where `attempt` counts the attempts already
made. -/
theorem should_retry_iff_lt (attempt : Nat) (policy : RetryPolicy) :
    should_retry attempt policy = true ↔ attempt < policy.max_attempts := by
  simp [should_retry]

/-- C6: for `backoff = exp`, `next_delay` equals
`base_delay_s * 2^(attempt-1) * (1 + u)` for the uniform draw `u` from the
jitter interval; the delay is always nonnegative; a `base_delay_s` of `0`
yields a zero delay (immediate retry), and with `jitter = 0` the jitter draw
contributes nothing (the delay is exactly the exponential term). -/
theorem next_delay_exp_spec (attempt : Nat) (policy : RetryPolicy) (u : ℚ)
    (hb : policy.backoff = Backoff.exp)
    (hbase : 0 ≤ policy.base_delay_s) (hu0 : 0 ≤ u) (hu1 : u ≤ policy.jitter) :
    next_delay attempt policy u = policy.base_delay_s * 2 ^ (attempt - 1) * (1 + u)
    ∧ 0 ≤ next_delay attempt policy u
    ∧ (policy.base_delay_s = 0 → next_delay attempt policy u = 0)
    ∧ (policy.jitter = 0 →
        next_delay attempt policy u = policy.base_delay_s * 2 ^ (attempt - 1)) := by
  have hdef : next_delay attempt policy u
      = policy.base_delay_s * 2 ^ (attempt - 1) * (1 + u) := by
    unfold next_delay
    rw [hb]
  refine ⟨hdef, ?_, ?_, ?_⟩
  · rw [hdef]
    have h2 : (0 : ℚ) ≤ 2 ^ (attempt - 1) := by positivity
    have h1u : (0 : ℚ) ≤ 1 + u := by linarith
    exact mul_nonneg (mul_nonneg hbase h2) h1u
  · intro h0
    rw [hdef, h0]
    ring
  · intro hj
    have hu : u = 0 := le_antisymm (hj ▸ hu1) hu0
    rw [hdef, hu]
    ring

/-- Witness for C6 at a concrete policy (`base_delay_s = 1/2`, `jitter = 1/5`,
draw `u = 1/10`). -/
theorem next_delay_exp_spec_witness :
    next_delay 2 { max_attempts := 3, base_delay_s := 1/2, jitter := 1/5 } (1/10)
      = (1/2 : ℚ) * 2 ^ (2 - 1) * (1 + 1/10)
    ∧ 0 ≤ next_delay 2 { max_attempts := 3, base_delay_s := 1/2, jitter := 1/5 } (1/10)
    ∧ ((1/2 : ℚ) = 0 →
        next_delay 2 { max_attempts := 3, base_delay_s := 1/2, jitter := 1/5 } (1/10) = 0)
    ∧ ((1/5 : ℚ) = 0 →
        next_delay 2 { max_attempts := 3, base_delay_s := 1/2, jitter := 1/5 } (1/10)
          = (1/2 : ℚ) * 2 ^ (2 - 1)) :=
  next_delay_exp_spec 2 { max_attempts := 3, base_delay_s := 1/2, jitter := 1/5 } (1/10)
    rfl (by norm_num) (by norm_num) (by norm_num)

/-- C7: for `backoff = exp`, `jitter = 0` (so the draw is `0`) and
`base_delay_s > 0`, the backoff delay is monotonically non-decreasing in the
attempt number. -/
theorem next_delay_exp_monotone (attempt : Nat) (policy : RetryPolicy)
    (hb : policy.backoff = Backoff.exp) (hj : policy.jitter = 0)
    (hbase : 0 < policy.base_delay_s) (hatt : 1 ≤ attempt) :
    next_delay attempt policy 0 ≤ next_delay (attempt + 1) policy 0 := by
  have hd : ∀ a : Nat, next_delay a policy 0
      = policy.base_delay_s * 2 ^ (a - 1) * (1 + 0) := by
    intro a
    unfold next_delay
    rw [hb]
  rw [hd, hd]
  have hexp : (2 : ℚ) ^ (attempt - 1) ≤ 2 ^ (attempt + 1 - 1) := by
    apply pow_le_pow_right₀ (by norm_num)
    omega
  have := mul_le_mul_of_nonneg_left hexp (le_of_lt hbase)
  nlinarith

/-- Witness for C7 at a concrete policy (`base_delay_s = 3`, attempt 2). -/
theorem next_delay_exp_monotone_witness :
    next_delay 2 { max_attempts := 5, base_delay_s := 3, jitter := 0 } 0
      ≤ next_delay 3 { max_attempts := 5, base_delay_s := 3, jitter := 0 } 0 :=
  next_delay_exp_monotone 2 { max_attempts := 5, base_delay_s := 3, jitter := 0 }
    rfl rfl (by norm_num) (by norm_num)

/-- Modelled from the spec: the opaque run-context handle, passed unchanged to
every worker factory; the core does not inspect its contents. -/
structure AgentContext where
  session_id : String := ""

/-- Modelled from the spec: a resolved worker ("agent"); the scheduler only
consumes its display name, worker behaviour (success, failure, timeout) enters
the model through the command stream. -/
structure Worker where
  name : String

/-- `TaskSpec`, with the field names taken from the constructor calls in
`src/demo_orchestrator.py` (lines 98-103): `TaskSpec(id=..., agent_factory=...,
prompt=..., params=...)`. The factory maps the shared run-context to one
worker instance. -/
structure TaskSpec where
  id : String
  agent_factory : AgentContext → Worker
  prompt : String := ""
  params : List (String × String) := []

/-- The keyword arguments with which `src/demo_orchestrator.py` constructs
`TaskSpec` values (lines 98-103), in order. -/
def taskSpecConstructorFields : List String :=
  ["id", "agent_factory", "prompt", "params"]

/-- Modelled from the spec: `OrchestrationPolicy` with `max_concurrency`
(positive integer), a `RetryPolicy`, a per-attempt timeout, and the
`fairness`/`cancellation` strategy labels (the demo passes `"round_robin"`
and `"isolated"`). -/
structure OrchestrationPolicy where
  max_concurrency : Nat
  retry : RetryPolicy
  timeout_s : ℚ := 30
  fairness : String := "round_robin"
  cancellation : String := "isolated"

/-- Modelled from the spec: a telemetry event. The spec's invariant speaks of
"the `task_started` events emitted for that task's id", so started/finished
events here carry the task id alongside the agent display name; timestamps are
the scheduler's logical clock. -/
inductive TEvent
  | task_started (ts : Nat) (task_id : String) (agent : String) (attempt : Nat)
  | task_finished (ts : Nat) (task_id : String) (agent : String)
      (status : Terminal) (duration_s : Nat)
  | heartbeat (ts : Nat) (agent : String) (running_for_s : Nat)
deriving DecidableEq, Inhabited

/-- Modelled from the spec: the per-task lifecycle states
`Queued → Running → {Success | Retrying → Queued | Failed | TimedOut}`;
`pendingRetry` is the transient `Retrying` state (backoff delay not yet
elapsed) and `done` covers the three terminal states. -/
inductive TStatus
  | queued
  | running
  | pendingRetry
  | done (t : Terminal)
deriving DecidableEq, Inhabited

/-- True exactly on the terminal states. -/
def TStatus.isDone : TStatus → Bool
  | TStatus.done _ => true
  | _ => false

/-- Modelled from the spec: the mutable per-task record (`id`, resolved agent
name, status, attempt count, accumulated error descriptions, success payload,
and the logical start time of the current attempt). -/
structure TaskRecord where
  id : String
  agent : String := ""
  status : TStatus := TStatus.queued
  attempts : Nat := 0
  errors : List String := []
  result : Option String := none
  curStart : Nat := 0
deriving DecidableEq, Inhabited

/-- Outcome of one attempt, as reported by the worker race: a successful
payload, a raised/reported failure with its description, or the `timeout_s`
deadline elapsing first. -/
inductive Outcome
  | success (payload : String)
  | failed (msg : String)
  | timeout
deriving DecidableEq, Inhabited

/-- The terminal status an outcome maps to. -/
def terminalOf : Outcome → Terminal
  | Outcome.success _ => Terminal.success
  | Outcome.failed _ => Terminal.failed
  | Outcome.timeout => Terminal.timeout

/-- Modelled from the spec: the scheduler's shared mutable state — the task
records (in input order), the append-only event bus, and a logical clock that
advances on every effective step. -/
structure SchedState where
  recs : List TaskRecord
  events : List TEvent
  time : Nat
deriving DecidableEq, Inhabited

/-- A run configuration: the shared context, the input task list and the
policy. -/
structure Cfg where
  ctx : AgentContext
  tasks : List TaskSpec
  policy : OrchestrationPolicy

/-- One scheduling decision. `start i` admits task `i` into a free slot,
`finish i o` completes task `i`'s current attempt with outcome `o`,
`wake i` marks task `i`'s retry backoff delay as elapsed, and `beat i`
publishes a heartbeat for the running task `i`. Command lists are external
nondeterminism: they range over all interleavings and worker behaviours. -/
inductive Cmd
  | start (i : Nat)
  | finish (i : Nat) (o : Outcome)
  | wake (i : Nat)
  | beat (i : Nat)
deriving DecidableEq, Inhabited

/-- Number of tasks currently in the `Running` state. -/
def runningCount (s : SchedState) : Nat :=
  s.recs.countP (fun r => decide (r.status = TStatus.running))

/-- The fresh record for an input task, before any attempt. -/
def initRecord (t : TaskSpec) : TaskRecord :=
  { id := t.id }

/-- Modelled from the spec: the scheduler's initial state — one queued record
per input task, in input order, an empty bus, clock zero. -/
def initState (cfg : Cfg) : SchedState :=
  { recs := cfg.tasks.map initRecord, events := [], time := 0 }

/-- Modelled from the spec: how a finished attempt updates the record. A
success is terminal with the payload stored; a failure or timeout appends its
error description and, when `should_retry` grants another attempt, parks the
task in the transient retry state, otherwise fixes the terminal `failed` or
`timeout` status of the last attempt. -/
def finishRecord (policy : OrchestrationPolicy) (r : TaskRecord) (o : Outcome) :
    TaskRecord :=
  match o with
  | Outcome.success payload =>
      { r with status := TStatus.done Terminal.success, result := some payload }
  | Outcome.failed msg =>
      if should_retry r.attempts policy.retry then
        { r with status := TStatus.pendingRetry, errors := r.errors ++ [msg] }
      else
        { r with status := TStatus.done Terminal.failed, errors := r.errors ++ [msg] }
  | Outcome.timeout =>
      if should_retry r.attempts policy.retry then
        { r with status := TStatus.pendingRetry, errors := r.errors ++ ["timeout"] }
      else
        { r with status := TStatus.done Terminal.timeout,
                 errors := r.errors ++ ["timeout"] }

/-- Modelled from the spec: the guarded small-step transition of the
scheduler. `start` fires only for a queued task when fewer than
`max_concurrency` tasks are running: it constructs the worker by applying the
task's `agent_factory` to the shared context, increments the attempt counter
and emits `task_started` with the 1-based attempt number. `finish` fires only
for a running task: it emits `task_finished` with the attempt's status and
duration and updates the record through `finishRecord`. `wake` returns a task
whose backoff delay elapsed to the queue; `beat` emits a heartbeat for a
running task. Any command whose guard fails leaves the state unchanged. -/
def step (cfg : Cfg) (s : SchedState) (c : Cmd) : SchedState :=
  match c with
  | Cmd.start i =>
      if h1 : i < s.recs.length then
        if h2 : i < cfg.tasks.length then
          if (s.recs[i]).status = TStatus.queued
              ∧ runningCount s < cfg.policy.max_concurrency then
            { recs := s.recs.set i
                { s.recs[i] with
                    status := TStatus.running,
                    attempts := (s.recs[i]).attempts + 1,
                    agent := ((cfg.tasks[i]).agent_factory cfg.ctx).name,
                    curStart := s.time },
              events := s.events
                ++ [TEvent.task_started s.time (cfg.tasks[i]).id
                      ((cfg.tasks[i]).agent_factory cfg.ctx).name
                      ((s.recs[i]).attempts + 1)],
              time := s.time + 1 }
          else s
        else s
      else s
  | Cmd.finish i o =>
      if h1 : i < s.recs.length then
        if (s.recs[i]).status = TStatus.running then
          { recs := s.recs.set i (finishRecord cfg.policy (s.recs[i]) o),
            events := s.events
              ++ [TEvent.task_finished s.time (s.recs[i]).id (s.recs[i]).agent
                    (terminalOf o) (s.time - (s.recs[i]).curStart)],
            time := s.time + 1 }
        else s
      else s
  | Cmd.wake i =>
      if h1 : i < s.recs.length then
        if (s.recs[i]).status = TStatus.pendingRetry then
          { recs := s.recs.set i { s.recs[i] with status := TStatus.queued },
            events := s.events,
            time := s.time + 1 }
        else s
      else s
  | Cmd.beat i =>
      if h1 : i < s.recs.length then
        if (s.recs[i]).status = TStatus.running then
          { recs := s.recs,
            events := s.events
              ++ [TEvent.heartbeat s.time (s.recs[i]).agent
                    (s.time - (s.recs[i]).curStart)],
            time := s.time + 1 }
        else s
      else s

/-- Execute a command list from the initial state. Every reachable state of
the scheduler is `execAll cfg cmds` for some command list `cmds`. -/
def execAll (cfg : Cfg) (cmds : List Cmd) : SchedState :=
  cmds.foldl (step cfg) (initState cfg)

/-- Modelled from the spec: the preconditions of `run` — unique task ids,
`max_concurrency ≥ 1` and `retry.max_attempts ≥ 1`. -/
def validConfig (tasks : List TaskSpec) (policy : OrchestrationPolicy) : Bool :=
  decide (tasks.map TaskSpec.id).Nodup
    && decide (1 ≤ policy.max_concurrency)
    && decide (1 ≤ policy.retry.max_attempts)

/-- Modelled from the spec: the configuration error that aborts a run whose
preconditions are violated. -/
structure ConfigurationError where
  msg : String
deriving DecidableEq, Inhabited

/-- Modelled from the spec: the aggregate result — the task records in input
order plus the run metrics (here `wall_time` as the final logical clock). -/
structure OrchestrationResult where
  tasks : List TaskRecord
  wall_time : Nat
deriving DecidableEq, Inhabited

/-- The result assembled from a scheduler state. -/
def result (s : SchedState) : OrchestrationResult :=
  { tasks := s.recs, wall_time := s.time }

/-- Modelled from the spec: `run(context, tasks, policy)`. The configuration
is validated first; a violation fails fast with a `ConfigurationError` before
any task is started, otherwise the scheduler executes (the command list
standing for worker behaviour and interleaving) and the aggregate result is
returned. -/
def run (cfg : Cfg) (cmds : List Cmd) : Except ConfigurationError OrchestrationResult :=
  if validConfig cfg.tasks cfg.policy then
    Except.ok (result (execAll cfg cmds))
  else
    Except.error { msg := "invalid orchestration configuration" }

/-- The events published by a run: none at all when the configuration is
rejected (the error is raised before any task is started). -/
def runEvents (cfg : Cfg) (cmds : List Cmd) : List TEvent :=
  if validConfig cfg.tasks cfg.policy then (execAll cfg cmds).events else []

/-- All task records terminal (the condition under which `run` returns). -/
def isFinal (s : SchedState) : Bool :=
  s.recs.all (fun r => r.status.isDone)

/-- Number of `task_started` events for the given task id. -/
def startedCount (evs : List TEvent) (tid : String) : Nat :=
  evs.countP (fun e => match e with
    | TEvent.task_started _ t _ _ => decide (t = tid)
    | _ => false)

/-- Number of `task_finished` events for the given task id. -/
def finishedCount (evs : List TEvent) (tid : String) : Nat :=
  evs.countP (fun e => match e with
    | TEvent.task_finished _ t _ _ _ => decide (t = tid)
    | _ => false)

/-- The statuses of the `task_finished` events for the given task id, in
emission order. -/
def finishedStatuses (evs : List TEvent) (tid : String) : List Terminal :=
  evs.filterMap (fun e => match e with
    | TEvent.task_finished _ t _ st _ => if t = tid then some st else none
    | _ => none)

/-- True when no `task_finished` event on the bus reports success — the trace
of a run whose workers always fail (or time out). -/
def noSuccessEvent (evs : List TEvent) : Bool :=
  evs.all (fun e => match e with
    | TEvent.task_finished _ _ _ st _ => decide (st ≠ Terminal.success)
    | _ => true)

theorem startedCount_append_started (evs : List TEvent) (ts : Nat)
    (t0 ag : String) (n : Nat) (tid : String) :
    startedCount (evs ++ [TEvent.task_started ts t0 ag n]) tid
      = startedCount evs tid + (if t0 = tid then 1 else 0) := by
  simp only [startedCount, List.countP_append, List.countP_cons, List.countP_nil]
  by_cases h : t0 = tid <;> simp [h]

theorem startedCount_append_finished (evs : List TEvent) (ts : Nat)
    (t0 ag : String) (st : Terminal) (d : Nat) (tid : String) :
    startedCount (evs ++ [TEvent.task_finished ts t0 ag st d]) tid
      = startedCount evs tid := by
  simp [startedCount, List.countP_append, List.countP_cons, List.countP_nil]

theorem startedCount_append_heartbeat (evs : List TEvent) (ts : Nat)
    (ag : String) (d : Nat) (tid : String) :
    startedCount (evs ++ [TEvent.heartbeat ts ag d]) tid
      = startedCount evs tid := by
  simp [startedCount, List.countP_append, List.countP_cons, List.countP_nil]

theorem finishedCount_append_started (evs : List TEvent) (ts : Nat)
    (t0 ag : String) (n : Nat) (tid : String) :
    finishedCount (evs ++ [TEvent.task_started ts t0 ag n]) tid
      = finishedCount evs tid := by
  simp [finishedCount, List.countP_append, List.countP_cons, List.countP_nil]

theorem finishedCount_append_finished (evs : List TEvent) (ts : Nat)
    (t0 ag : String) (st : Terminal) (d : Nat) (tid : String) :
    finishedCount (evs ++ [TEvent.task_finished ts t0 ag st d]) tid
      = finishedCount evs tid + (if t0 = tid then 1 else 0) := by
  simp only [finishedCount, List.countP_append, List.countP_cons, List.countP_nil]
  by_cases h : t0 = tid <;> simp [h]

theorem finishedCount_append_heartbeat (evs : List TEvent) (ts : Nat)
    (ag : String) (d : Nat) (tid : String) :
    finishedCount (evs ++ [TEvent.heartbeat ts ag d]) tid
      = finishedCount evs tid := by
  simp [finishedCount, List.countP_append, List.countP_cons, List.countP_nil]

theorem finishedStatuses_append_started (evs : List TEvent) (ts : Nat)
    (t0 ag : String) (n : Nat) (tid : String) :
    finishedStatuses (evs ++ [TEvent.task_started ts t0 ag n]) tid
      = finishedStatuses evs tid := by
  simp [finishedStatuses, List.filterMap_append]

theorem finishedStatuses_append_finished (evs : List TEvent) (ts : Nat)
    (t0 ag : String) (st : Terminal) (d : Nat) (tid : String) :
    finishedStatuses (evs ++ [TEvent.task_finished ts t0 ag st d]) tid
      = finishedStatuses evs tid ++ (if t0 = tid then [st] else []) := by
  by_cases h : t0 = tid <;>
    simp [finishedStatuses, List.filterMap_append, h]

theorem finishedStatuses_append_heartbeat (evs : List TEvent) (ts : Nat)
    (ag : String) (d : Nat) (tid : String) :
    finishedStatuses (evs ++ [TEvent.heartbeat ts ag d]) tid
      = finishedStatuses evs tid := by
  simp [finishedStatuses, List.filterMap_append]

theorem countP_set_add {α : Type} (p : α → Bool) (l : List α) (i : Nat) (x : α)
    (h : i < l.length) :
    (l.set i x).countP p + (if p l[i] then 1 else 0)
      = l.countP p + (if p x then 1 else 0) := by
  induction l generalizing i with
  | nil => simp at h
  | cons a tl ih =>
    cases i with
    | zero =>
      simp only [List.set, List.countP_cons, List.getElem_cons_zero]
      by_cases hx : p x <;> by_cases ha : p a <;> simp [hx, ha]
    | succ n =>
      have hn : n < tl.length := by simpa using h
      have hih := ih n hn
      simp only [List.set, List.countP_cons, List.getElem_cons_succ]
      omega

theorem exec_induction (cfg : Cfg) (P : SchedState → Prop)
    (h0 : P (initState cfg)) (hs : ∀ s c, P s → P (step cfg s c)) :
    ∀ cmds : List Cmd, P (execAll cfg cmds) := by
  have key : ∀ (cmds : List Cmd) (s : SchedState),
      P s → P (cmds.foldl (step cfg) s) := by
    intro cmds
    induction cmds with
    | nil => intro s hp; simpa using hp
    | cons c rest ih => intro s hp; exact ih _ (hs s c hp)
  intro cmds
  exact key cmds _ h0

theorem finishRecord_id (p : OrchestrationPolicy) (r : TaskRecord) (o : Outcome) :
    (finishRecord p r o).id = r.id := by
  cases o <;> simp only [finishRecord] <;> first | rfl | (split <;> rfl)

theorem finishRecord_attempts (p : OrchestrationPolicy) (r : TaskRecord)
    (o : Outcome) : (finishRecord p r o).attempts = r.attempts := by
  cases o <;> simp only [finishRecord] <;> first | rfl | (split <;> rfl)

theorem finishRecord_not_running (p : OrchestrationPolicy) (r : TaskRecord)
    (o : Outcome) : (finishRecord p r o).status ≠ TStatus.running := by
  cases o with
  | success payload => simp [finishRecord]
  | failed msg => simp only [finishRecord]; split <;> simp
  | timeout => simp only [finishRecord]; split <;> simp

theorem finishRecord_not_queued (p : OrchestrationPolicy) (r : TaskRecord)
    (o : Outcome) : (finishRecord p r o).status ≠ TStatus.queued := by
  cases o with
  | success payload => simp [finishRecord]
  | failed msg => simp only [finishRecord]; split <;> simp
  | timeout => simp only [finishRecord]; split <;> simp

theorem finishRecord_done (p : OrchestrationPolicy) (r : TaskRecord)
    (o : Outcome) (term : Terminal)
    (h : (finishRecord p r o).status = TStatus.done term) :
    term = terminalOf o := by
  cases o with
  | success payload => simp only [finishRecord, terminalOf] at h ⊢; simp_all
  | failed msg =>
      simp only [finishRecord, terminalOf] at h ⊢
      split at h <;> simp_all
  | timeout =>
      simp only [finishRecord, terminalOf] at h ⊢
      split at h <;> simp_all

theorem finishRecord_pending (p : OrchestrationPolicy) (r : TaskRecord)
    (o : Outcome)
    (h : (finishRecord p r o).status = TStatus.pendingRetry) :
    should_retry r.attempts p.retry = true := by
  cases o with
  | success payload => simp only [finishRecord] at h; simp_all
  | failed msg =>
      simp only [finishRecord] at h
      split at h <;> simp_all
  | timeout =>
      simp only [finishRecord] at h
      split at h <;> simp_all

theorem finishRecord_done_not_success (p : OrchestrationPolicy) (r : TaskRecord)
    (o : Outcome) (term : Terminal)
    (h : (finishRecord p r o).status = TStatus.done term)
    (hns : term ≠ Terminal.success) :
    should_retry r.attempts p.retry = false := by
  cases o with
  | success payload =>
      simp only [finishRecord] at h
      exact absurd (by simpa using h.symm) hns
  | failed msg =>
      simp only [finishRecord] at h
      split at h <;> simp_all
  | timeout =>
      simp only [finishRecord] at h
      split at h <;> simp_all

theorem id_injective (tasks : List TaskSpec)
    (hnd : (tasks.map TaskSpec.id).Nodup) (i j : Nat)
    (hi : i < tasks.length) (hj : j < tasks.length)
    (heq : (tasks[i]).id = (tasks[j]).id) : i = j := by
  have hmi : i < (tasks.map TaskSpec.id).length := by simpa using hi
  have hmj : j < (tasks.map TaskSpec.id).length := by simpa using hj
  have hmeq : (tasks.map TaskSpec.id)[i] = (tasks.map TaskSpec.id)[j] := by
    simpa using heq
  exact hnd.getElem_inj_iff.mp hmeq

/-- The per-task bookkeeping invariant tying a task's record to the events on
the bus: the record's id matches the spec, `attempts` equals the number of
`task_started` events for the task's id, the number of `task_finished` events
is `attempts` minus one exactly while the task is running, a terminal record's
status is the status of the last `task_finished` event for the task, every
`task_started` event's agent is the name of the worker produced by applying
the task's `agent_factory` to the run-context, and the attempt counter
respects `max_attempts` according to the lifecycle state. -/
structure TaskInv (cfg : Cfg) (evs : List TEvent) (t : TaskSpec)
    (r : TaskRecord) : Prop where
  id_eq : r.id = t.id
  started_eq : startedCount evs t.id = r.attempts
  finished_eq : finishedCount evs t.id
      + (if r.status = TStatus.running then 1 else 0) = r.attempts
  done_last : ∀ term, r.status = TStatus.done term →
      (finishedStatuses evs t.id).getLast? = some term
  agent_eq : ∀ ts ag n, TEvent.task_started ts t.id ag n ∈ evs →
      ag = (t.agent_factory cfg.ctx).name
  queued_lt : r.status = TStatus.queued →
      r.attempts < cfg.policy.retry.max_attempts
  pending_lt : r.status = TStatus.pendingRetry →
      r.attempts < cfg.policy.retry.max_attempts
  running_le : r.status = TStatus.running →
      r.attempts ≤ cfg.policy.retry.max_attempts
  done_fail_eq : ∀ term, r.status = TStatus.done term →
      term ≠ Terminal.success →
      r.attempts = cfg.policy.retry.max_attempts

/-- The scheduler invariant: one record per input task (in input order), each
satisfying `TaskInv`. -/
def Inv (cfg : Cfg) (s : SchedState) : Prop :=
  s.recs.length = cfg.tasks.length ∧
  ∀ i (hri : i < s.recs.length) (hti : i < cfg.tasks.length),
    TaskInv cfg s.events (cfg.tasks[i]) (s.recs[i])

/-- A `TaskInv` survives appending an event that carries no `task_started` or
`task_finished` information for this task's id. -/
theorem TaskInv.append_other (cfg : Cfg) (evs : List TEvent) (e : TEvent)
    (t : TaskSpec) (r : TaskRecord) (hinv : TaskInv cfg evs t r)
    (hs : startedCount (evs ++ [e]) t.id = startedCount evs t.id)
    (hf : finishedCount (evs ++ [e]) t.id = finishedCount evs t.id)
    (hfs : finishedStatuses (evs ++ [e]) t.id = finishedStatuses evs t.id)
    (hag : ∀ ts ag n, e = TEvent.task_started ts t.id ag n →
        ag = (t.agent_factory cfg.ctx).name) :
    TaskInv cfg (evs ++ [e]) t r := by
  refine ⟨hinv.id_eq, ?_, ?_, ?_, ?_, hinv.queued_lt, hinv.pending_lt,
    hinv.running_le, hinv.done_fail_eq⟩
  · rw [hs]; exact hinv.started_eq
  · rw [hf]; exact hinv.finished_eq
  · intro term hterm
    rw [hfs]
    exact hinv.done_last term hterm
  · intro ts ag n hmem
    rcases List.mem_append.mp hmem with hold | hnew
    · exact hinv.agent_eq ts ag n hold
    · exact hag ts ag n (List.mem_singleton.mp hnew).symm

theorem inv_init (cfg : Cfg) (hma : 1 ≤ cfg.policy.retry.max_attempts) :
    Inv cfg (initState cfg) := by
  refine ⟨by simp [initState], ?_⟩
  intro i hri hti
  have hrec : (initState cfg).recs[i] = initRecord (cfg.tasks[i]) := by
    simp [initState]
  rw [hrec]
  refine ⟨rfl, ?_, ?_, ?_, ?_, ?_, ?_, ?_, ?_⟩
  · simp [initState, startedCount, initRecord]
  · simp [initState, finishedCount, initRecord]
  · intro term habs
    simp [initRecord] at habs
  · intro ts ag n hmem
    simp [initState] at hmem
  · intro _
    simpa [initRecord] using hma
  · intro habs
    simp [initRecord] at habs
  · intro habs
    simp [initRecord] at habs
  · intro term habs
    simp [initRecord] at habs

theorem runningCount_init (cfg : Cfg) : runningCount (initState cfg) = 0 := by
  simp only [runningCount, initState, List.countP_map]
  have : ∀ t : TaskSpec,
      (decide ((initRecord t).status = TStatus.running)) = false := by
    intro t
    simp [initRecord]
  calc cfg.tasks.countP
        ((fun r => decide (r.status = TStatus.running)) ∘ initRecord)
      = cfg.tasks.countP (fun _ => false) := by
        apply List.countP_congr
        intro t _
        simpa using this t
    _ = 0 := by simp

theorem runningCount_step_le (cfg : Cfg) (s : SchedState) (c : Cmd)
    (hle : runningCount s ≤ cfg.policy.max_concurrency) :
    runningCount (step cfg s c) ≤ cfg.policy.max_concurrency := by
  cases c with
  | start i =>
      simp only [step]
      split
      · rename_i h1
        split
        · rename_i h2
          split
          · rename_i hg
            obtain ⟨hq, hcnt⟩ := hg
            have key := countP_set_add
              (fun r => decide (r.status = TStatus.running)) s.recs i
              { s.recs[i] with
                  status := TStatus.running,
                  attempts := (s.recs[i]).attempts + 1,
                  agent := ((cfg.tasks[i]).agent_factory cfg.ctx).name,
                  curStart := s.time } h1
            simp only [runningCount] at hcnt ⊢
            simp [hq] at key
            omega
          · exact hle
        · exact hle
      · exact hle
  | finish i o =>
      simp only [step]
      split
      · rename_i h1
        split
        · rename_i hrun
          have key := countP_set_add
            (fun r => decide (r.status = TStatus.running)) s.recs i
            (finishRecord cfg.policy (s.recs[i]) o) h1
          have hnr := finishRecord_not_running cfg.policy (s.recs[i]) o
          simp only [runningCount] at hle ⊢
          simp [hrun, hnr] at key
          omega
        · exact hle
      · exact hle
  | wake i =>
      simp only [step]
      split
      · rename_i h1
        split
        · rename_i hp
          have key := countP_set_add
            (fun r => decide (r.status = TStatus.running)) s.recs i
            { s.recs[i] with status := TStatus.queued } h1
          simp only [runningCount] at hle ⊢
          simp [hp] at key
          omega
        · exact hle
      · exact hle
  | beat i =>
      simp only [step]
      split
      · rename_i h1
        split
        · rename_i hrun
          simpa [runningCount] using hle
        · exact hle
      · exact hle

theorem inv_step (cfg : Cfg) (s : SchedState) (c : Cmd)
    (hnd : (cfg.tasks.map TaskSpec.id).Nodup)
    (hinv : Inv cfg s) : Inv cfg (step cfg s c) := by
  obtain ⟨hlen, htask⟩ := hinv
  cases c with
  | start i =>
      simp only [step]
      split
      · rename_i h1
        split
        · rename_i h2
          split
          · rename_i hg
            obtain ⟨hq, hcnt⟩ := hg
            refine ⟨by simp [hlen], ?_⟩
            intro j hrj htj
            have hrj2 : j < s.recs.length := by
              simpa [List.length_set] using hrj
            by_cases hij : j = i
            · subst hij
              have hold := htask j hrj2 htj
              simp only [List.getElem_set_self]
              refine ⟨by simpa using hold.id_eq, ?_, ?_, ?_, ?_, ?_, ?_, ?_, ?_⟩
              · rw [startedCount_append_started]
                simp [hold.started_eq]
              · have hfe := hold.finished_eq
                simp only [hq] at hfe
                rw [finishedCount_append_started]
                simp only [if_pos rfl] at hfe ⊢
                simp at hfe
                simp [hfe]
              · intro term habs
                simp at habs
              · intro ts ag n hmem
                rcases List.mem_append.mp hmem with hold2 | hnew
                · exact hold.agent_eq ts ag n hold2
                · have heq := List.mem_singleton.mp hnew
                  simp only [TEvent.task_started.injEq] at heq
                  exact heq.2.2.1
              · intro habs
                simp at habs
              · intro habs
                simp at habs
              · intro _
                have := hold.queued_lt hq
                simp only []
                omega
              · intro term habs
                simp at habs
            · have hne : i ≠ j := fun h => hij h.symm
              have hold := htask j hrj2 htj
              have hid : (cfg.tasks[i]).id ≠ (cfg.tasks[j]).id := by
                intro h
                exact hij (id_injective cfg.tasks hnd j i htj h2 h.symm)
              simp only [List.getElem_set_ne hne]
              apply TaskInv.append_other cfg s.events _ _ _ hold
              · rw [startedCount_append_started]
                simp [hid]
              · rw [finishedCount_append_started]
              · rw [finishedStatuses_append_started]
              · intro ts ag n heq
                simp only [TEvent.task_started.injEq] at heq
                exact absurd heq.2.1 hid
          · exact ⟨hlen, htask⟩
        · exact ⟨hlen, htask⟩
      · exact ⟨hlen, htask⟩
  | finish i o =>
      simp only [step]
      split
      · rename_i h1
        split
        · rename_i hrun
          have h2 : i < cfg.tasks.length := hlen ▸ h1
          have holdi := htask i h1 h2
          have hidi : (s.recs[i]).id = (cfg.tasks[i]).id := holdi.id_eq
          refine ⟨by simp [hlen], ?_⟩
          intro j hrj htj
          have hrj2 : j < s.recs.length := by
            simpa [List.length_set] using hrj
          by_cases hij : j = i
          · subst hij
            have hold := htask j hrj2 htj
            simp only [List.getElem_set_self]
            refine ⟨?_, ?_, ?_, ?_, ?_, ?_, ?_, ?_, ?_⟩
            · rw [finishRecord_id]
              exact hold.id_eq
            · rw [startedCount_append_finished, finishRecord_attempts]
              exact hold.started_eq
            · have hfe := hold.finished_eq
              rw [hrun] at hfe
              simp only [if_pos rfl] at hfe
              simp at hfe
              rw [finishedCount_append_finished, if_pos hidi,
                if_neg (finishRecord_not_running cfg.policy (s.recs[j]) o),
                finishRecord_attempts]
              omega
            · intro term hdone
              have hterm := finishRecord_done cfg.policy (s.recs[j]) o term hdone
              rw [finishedStatuses_append_finished, if_pos hidi,
                List.getLast?_concat, hterm]
            · intro ts ag n hmem
              rcases List.mem_append.mp hmem with hold2 | hnew
              · exact hold.agent_eq ts ag n hold2
              · have heq := List.mem_singleton.mp hnew
                simp at heq
            · intro habs
              exact absurd habs (finishRecord_not_queued cfg.policy (s.recs[j]) o)
            · intro hpend
              have hsr := finishRecord_pending cfg.policy (s.recs[j]) o hpend
              simp only [should_retry, decide_eq_true_eq] at hsr
              rw [finishRecord_attempts]
              exact hsr
            · intro habs
              exact absurd habs (finishRecord_not_running cfg.policy (s.recs[j]) o)
            · intro term hdone hns
              have hsr := finishRecord_done_not_success cfg.policy (s.recs[j]) o
                term hdone hns
              simp only [should_retry, decide_eq_false_iff_not] at hsr
              have hle2 := hold.running_le hrun
              rw [finishRecord_attempts]
              omega
          · have hne : i ≠ j := fun h => hij h.symm
            have hold := htask j hrj2 htj
            have hid : (cfg.tasks[i]).id ≠ (cfg.tasks[j]).id := by
              intro h
              exact hij (id_injective cfg.tasks hnd j i htj h2 h.symm)
            have hid2 : (s.recs[i]).id ≠ (cfg.tasks[j]).id := by
              rw [hidi]
              exact hid
            simp only [List.getElem_set_ne hne]
            apply TaskInv.append_other cfg s.events _ _ _ hold
            · rw [startedCount_append_finished]
            · rw [finishedCount_append_finished]
              simp [hid2]
            · rw [finishedStatuses_append_finished]
              simp [hid2]
            · intro ts ag n heq
              simp at heq
        · exact ⟨hlen, htask⟩
      · exact ⟨hlen, htask⟩
  | wake i =>
      simp only [step]
      split
      · rename_i h1
        split
        · rename_i hp
          refine ⟨by simp [hlen], ?_⟩
          intro j hrj htj
          have hrj2 : j < s.recs.length := by
            simpa [List.length_set] using hrj
          by_cases hij : j = i
          · subst hij
            have hold := htask j hrj2 htj
            simp only [List.getElem_set_self]
            refine ⟨by simpa using hold.id_eq, hold.started_eq, ?_, ?_,
              hold.agent_eq, ?_, ?_, ?_, ?_⟩
            · have hfe := hold.finished_eq
              simp only [hp] at hfe
              simp at hfe
              simp [hfe]
            · intro term habs
              simp at habs
            · intro _
              have := hold.pending_lt hp
              simpa using this
            · intro habs
              simp at habs
            · intro habs
              simp at habs
            · intro term habs
              simp at habs
          · have hne : i ≠ j := fun h => hij h.symm
            simp only [List.getElem_set_ne hne]
            exact htask j hrj2 htj
        · exact ⟨hlen, htask⟩
      · exact ⟨hlen, htask⟩
  | beat i =>
      simp only [step]
      split
      · rename_i h1
        split
        · rename_i hrun
          refine ⟨by simp [hlen], ?_⟩
          intro j hrj htj
          have hrj2 : j < s.recs.length := by
            simpa using hrj
          apply TaskInv.append_other cfg s.events _ _ _ (htask j hrj2 htj)
          · rw [startedCount_append_heartbeat]
          · rw [finishedCount_append_heartbeat]
          · rw [finishedStatuses_append_heartbeat]
          · intro ts ag n heq
            simp at heq
        · exact ⟨hlen, htask⟩
      · exact ⟨hlen, htask⟩

theorem inv_execAll (cfg : Cfg) (cmds : List Cmd)
    (hnd : (cfg.tasks.map TaskSpec.id).Nodup)
    (hma : 1 ≤ cfg.policy.retry.max_attempts) :
    Inv cfg (execAll cfg cmds) :=
  exec_induction cfg (Inv cfg) (inv_init cfg hma)
    (fun s c h => inv_step cfg s c hnd h) cmds

theorem isDone_iff (st : TStatus) :
    st.isDone = true ↔ ∃ t, st = TStatus.done t := by
  cases st <;> simp [TStatus.isDone]

theorem mem_of_getLast?_eq {α : Type} {l : List α} {a : α}
    (h : l.getLast? = some a) : a ∈ l := by
  obtain ⟨hne, heq⟩ := List.mem_getLast?_eq_getLast
    (show a ∈ l.getLast? by simp [Option.mem_def, h])
  rw [heq]
  exact List.getLast_mem hne

theorem validConfig_unfold (tasks : List TaskSpec) (policy : OrchestrationPolicy)
    (hv : validConfig tasks policy = true) :
    (tasks.map TaskSpec.id).Nodup
    ∧ 1 ≤ policy.max_concurrency
    ∧ 1 ≤ policy.retry.max_attempts := by
  simp only [validConfig, Bool.and_eq_true, decide_eq_true_eq] at hv
  exact ⟨hv.1.1, hv.1.2, hv.2⟩

/-- A two-task configuration (ids and agent names from the demo driver) used
as a concrete input by the witnesses. -/
def demoCfg : Cfg :=
  { ctx := {},
    tasks := [
      { id := "data_analysis", agent_factory := fun _ => { name := "DataAnalyst" } },
      { id := "code_review", agent_factory := fun _ => { name := "CodeReviewer" } }],
    policy := { max_concurrency := 1, retry := { max_attempts := 2 } } }

/-- A schedule for `demoCfg`: the first task fails, retries and times out, the
second succeeds. -/
def demoCmds : List Cmd :=
  [Cmd.start 0, Cmd.finish 0 (Outcome.failed "boom"), Cmd.wake 0,
   Cmd.start 0, Cmd.finish 0 Outcome.timeout,
   Cmd.start 1, Cmd.finish 1 (Outcome.success "ok")]

/-- A two-slot configuration whose schedule completes the second task before
the first. -/
def demoCfg2 : Cfg :=
  { ctx := {},
    tasks := [
      { id := "documentation", agent_factory := fun _ => { name := "TechnicalWriter" } },
      { id := "testing", agent_factory := fun _ => { name := "TestEngineer" } }],
    policy := { max_concurrency := 2, retry := { max_attempts := 1 } } }

/-- A schedule for `demoCfg2` finishing the tasks in reverse input order. -/
def demoCmds2 : List Cmd :=
  [Cmd.start 0, Cmd.start 1, Cmd.finish 1 (Outcome.success "b"),
   Cmd.finish 0 (Outcome.success "a")]

/-- A one-task configuration whose worker always fails, with two attempts
allowed. -/
def failCfg : Cfg :=
  { ctx := {},
    tasks := [{ id := "optimization",
                agent_factory := fun _ => { name := "PerformanceOptimizer" } }],
    policy := { max_concurrency := 1, retry := { max_attempts := 2 } } }

/-- An always-failing schedule for `failCfg` driving the task to exhaustion. -/
def failCmds : List Cmd :=
  [Cmd.start 0, Cmd.finish 0 (Outcome.failed "e1"), Cmd.wake 0,
   Cmd.start 0, Cmd.finish 0 Outcome.timeout]

/-- The final record of the always-failing run. -/
def failRec : TaskRecord := (execAll failCfg failCmds).recs.headI

/-- A configuration violating the unique-id precondition. -/
def badCfg : Cfg :=
  { ctx := {},
    tasks := [
      { id := "monitoring", agent_factory := fun _ => { name := "SystemMonitor" } },
      { id := "monitoring", agent_factory := fun _ => { name := "SystemMonitor" } }],
    policy := { max_concurrency := 1, retry := { max_attempts := 1 } } }

/-- C1: throughout any run whose preconditions hold, the number of tasks
simultaneously in the `Running` state never exceeds `policy.max_concurrency`;
every reachable state of the step relation is `execAll cfg cmds` for some
command list `cmds`, so the bound holds in every reachable state. -/
theorem running_never_exceeds_max_concurrency (cfg : Cfg) (cmds : List Cmd)
    (hv : validConfig cfg.tasks cfg.policy = true) :
    runningCount (execAll cfg cmds) ≤ cfg.policy.max_concurrency :=
  exec_induction cfg
    (fun s => runningCount s ≤ cfg.policy.max_concurrency)
    (by simp [runningCount_init])
    (fun s c h => runningCount_step_le cfg s c h) cmds

/-- Witness for C1: with `max_concurrency = 1`, a schedule that tries to start
both tasks keeps at most one running. -/
theorem running_never_exceeds_max_concurrency_witness :
    runningCount (execAll demoCfg [Cmd.start 0, Cmd.start 1])
      ≤ demoCfg.policy.max_concurrency :=
  running_never_exceeds_max_concurrency demoCfg [Cmd.start 0, Cmd.start 1]
    (by decide)

/-- C2: a run that returns normally (all tasks driven to a terminal state)
yields exactly one record per input task, in input order (the id sequence of
the result equals the id sequence of the input), every record terminal — no
task is silently lost. -/
theorem result_enumerates_all_tasks (cfg : Cfg) (cmds : List Cmd)
    (res : OrchestrationResult) (hrun : run cfg cmds = Except.ok res)
    (hfin : isFinal (execAll cfg cmds) = true) :
    res.tasks.length = cfg.tasks.length
    ∧ res.tasks.map TaskRecord.id = cfg.tasks.map TaskSpec.id
    ∧ ∀ r ∈ res.tasks, ∃ term, r.status = TStatus.done term := by
  by_cases hv : validConfig cfg.tasks cfg.policy = true
  · unfold run at hrun
    rw [if_pos hv] at hrun
    have hres : res = result (execAll cfg cmds) := by
      cases hrun
      rfl
    subst hres
    obtain ⟨hnd, hmc, hma⟩ := validConfig_unfold cfg.tasks cfg.policy hv
    obtain ⟨hlen, htask⟩ := inv_execAll cfg cmds hnd hma
    refine ⟨hlen, ?_, ?_⟩
    · apply List.ext_getElem
      · simp [result, hlen]
      · intro i h1 h2
        simp only [List.getElem_map]
        have hri : i < (execAll cfg cmds).recs.length := by simpa [result] using h1
        have hti : i < cfg.tasks.length := by simpa using h2
        exact (htask i hri hti).id_eq
    · intro r hr
      simp only [isFinal, List.all_eq_true] at hfin
      exact (isDone_iff r.status).mp (hfin r (by simpa [result] using hr))
  · unfold run at hrun
    rw [if_neg hv] at hrun
    cases hrun

/-- Witness for C2: the schedule completes `testing` before `documentation`,
yet the result lists the records in input order, one per task, all
terminal. -/
theorem result_enumerates_all_tasks_witness :
    (result (execAll demoCfg2 demoCmds2)).tasks.length = demoCfg2.tasks.length
    ∧ (result (execAll demoCfg2 demoCmds2)).tasks.map TaskRecord.id
        = demoCfg2.tasks.map TaskSpec.id :=
  ⟨(result_enumerates_all_tasks demoCfg2 demoCmds2
      (result (execAll demoCfg2 demoCmds2)) rfl (by decide)).1,
   (result_enumerates_all_tasks demoCfg2 demoCmds2
      (result (execAll demoCfg2 demoCmds2)) rfl (by decide)).2.1⟩

/-- C3: `run` raises a `ConfigurationError` exactly when the configuration is
invalid (duplicate ids, `max_concurrency < 1` or `max_attempts < 1`); the
error is raised before any task is started (no event is ever published for a
rejected configuration), and with a valid configuration `run` returns
normally for every command stream — a worker failure during an attempt never
surfaces as an exception. -/
theorem run_raises_iff_invalid_config (cfg : Cfg) (cmds : List Cmd) :
    ((∃ e, run cfg cmds = Except.error e)
      ↔ validConfig cfg.tasks cfg.policy = false)
    ∧ (validConfig cfg.tasks cfg.policy = false → runEvents cfg cmds = [])
    ∧ (validConfig cfg.tasks cfg.policy = true →
        ∃ res, run cfg cmds = Except.ok res) := by
  by_cases hv : validConfig cfg.tasks cfg.policy = true
  · refine ⟨?_, ?_, ?_⟩ <;> simp [run, runEvents, hv]
  · have hv2 : validConfig cfg.tasks cfg.policy = false := by
      simpa using hv
    refine ⟨?_, ?_, ?_⟩ <;> simp [run, runEvents, hv2]

/-- C4: in a completed valid run, each record's `attempts` equals the number
of `task_started` events for its id, the number of `task_finished` events
equals `attempts`, the last `task_finished` event carries the record's
terminal status; and when no attempt ever succeeds (an always-failing
worker), the record ends with `attempts = max_attempts` and a `failed` or
`timeout` status. -/
theorem attempts_equal_started_events (cfg : Cfg) (cmds : List Cmd)
    (hv : validConfig cfg.tasks cfg.policy = true)
    (hfin : isFinal (execAll cfg cmds) = true) :
    ∀ r ∈ (execAll cfg cmds).recs,
      startedCount (execAll cfg cmds).events r.id = r.attempts
      ∧ finishedCount (execAll cfg cmds).events r.id = r.attempts
      ∧ (∀ term, r.status = TStatus.done term →
          (finishedStatuses (execAll cfg cmds).events r.id).getLast? = some term)
      ∧ (noSuccessEvent (execAll cfg cmds).events = true →
          r.attempts = cfg.policy.retry.max_attempts
          ∧ ∃ term, r.status = TStatus.done term
              ∧ (term = Terminal.failed ∨ term = Terminal.timeout)) := by
  obtain ⟨hnd, hmc, hma⟩ := validConfig_unfold cfg.tasks cfg.policy hv
  obtain ⟨hlen, htask⟩ := inv_execAll cfg cmds hnd hma
  intro r hr
  obtain ⟨i, hi, hri⟩ := List.mem_iff_getElem.mp hr
  have hti : i < cfg.tasks.length := hlen ▸ hi
  have hinv := htask i hi hti
  subst hri
  simp only [isFinal, List.all_eq_true] at hfin
  obtain ⟨term, hterm⟩ := (isDone_iff _).mp (hfin _ (List.getElem_mem hi))
  have hidr := hinv.id_eq
  have hnotrun : ¬ ((execAll cfg cmds).recs[i]).status = TStatus.running := by
    rw [hterm]
    simp
  refine ⟨?_, ?_, ?_, ?_⟩
  · rw [hidr]
    exact hinv.started_eq
  · rw [hidr]
    have hfe := hinv.finished_eq
    rw [if_neg hnotrun] at hfe
    omega
  · intro t2 h2
    rw [hidr]
    exact hinv.done_last t2 h2
  · intro hnos
    by_cases hsucc : term = Terminal.success
    · exfalso
      subst hsucc
      have hlast := hinv.done_last _ hterm
      have hmem := mem_of_getLast?_eq hlast
      obtain ⟨e, hemem, hef⟩ := List.mem_filterMap.mp
        (by simpa [finishedStatuses] using hmem)
      simp only [noSuccessEvent, List.all_eq_true] at hnos
      have hne := hnos e hemem
      cases e <;> simp_all
    · have hfail := hinv.done_fail_eq term hterm hsucc
      refine ⟨hfail, term, hterm, ?_⟩
      cases term
      · exact absurd rfl hsucc
      · exact Or.inl rfl
      · exact Or.inr rfl

/-- Witness for C4: the always-failing two-attempt run ends with
`attempts = 2` matched by two `task_started` and two `task_finished`
events. -/
theorem attempts_equal_started_events_witness :
    startedCount (execAll failCfg failCmds).events failRec.id = failRec.attempts
    ∧ finishedCount (execAll failCfg failCmds).events failRec.id
        = failRec.attempts :=
  ⟨(attempts_equal_started_events failCfg failCmds (by decide) (by decide)
      failRec (by decide)).1,
   (attempts_equal_started_events failCfg failCmds (by decide) (by decide)
      failRec (by decide)).2.1⟩

/-- C8: within one task attempts are strictly sequential: in every reachable
state of a valid run, the number of `task_started` events for a task's id
never exceeds the number of its `task_finished` events plus one — attempt
N+1 cannot have started before attempt N's terminal event was published. -/
theorem attempts_strictly_sequential (cfg : Cfg) (cmds : List Cmd)
    (hv : validConfig cfg.tasks cfg.policy = true) :
    ∀ r ∈ (execAll cfg cmds).recs,
      startedCount (execAll cfg cmds).events r.id
        ≤ finishedCount (execAll cfg cmds).events r.id + 1 := by
  obtain ⟨hnd, hmc, hma⟩ := validConfig_unfold cfg.tasks cfg.policy hv
  obtain ⟨hlen, htask⟩ := inv_execAll cfg cmds hnd hma
  intro r hr
  obtain ⟨i, hi, hri⟩ := List.mem_iff_getElem.mp hr
  have hti : i < cfg.tasks.length := hlen ▸ hi
  have hinv := htask i hi hti
  subst hri
  rw [hinv.id_eq]
  have h1 := hinv.started_eq
  have h2 := hinv.finished_eq
  by_cases hrn : ((execAll cfg cmds).recs[i]).status = TStatus.running
  · rw [if_pos hrn] at h2
    omega
  · rw [if_neg hrn] at h2
    omega

/-- Witness for C8: mid-run, after one start and one finish and a second
start of the first task, its started count (2) is bounded by its finished
count (1) plus one. -/
theorem attempts_strictly_sequential_witness :
    startedCount (execAll failCfg [Cmd.start 0, Cmd.finish 0 (Outcome.failed "e"),
        Cmd.wake 0, Cmd.start 0]).events (failCfg.tasks.get ⟨0, by decide⟩).id
      ≤ finishedCount (execAll failCfg [Cmd.start 0, Cmd.finish 0 (Outcome.failed "e"),
        Cmd.wake 0, Cmd.start 0]).events (failCfg.tasks.get ⟨0, by decide⟩).id + 1 :=
  attempts_strictly_sequential failCfg
    [Cmd.start 0, Cmd.finish 0 (Outcome.failed "e"), Cmd.wake 0, Cmd.start 0]
    (by decide)
    ((execAll failCfg [Cmd.start 0, Cmd.finish 0 (Outcome.failed "e"),
        Cmd.wake 0, Cmd.start 0]).recs.headI)
    (by decide)

/-- C10 counterexample: the demo driver constructs `TaskSpec` with the
keyword argument `agent_factory`, not `worker_factory` — the claimed field
name does not exist. -/
theorem taskSpec_field_named_agent_factory :
    "worker_factory" ∉ taskSpecConstructorFields
    ∧ "agent_factory" ∈ taskSpecConstructorFields := by
  decide

/-- C10 (amended): `TaskSpec` carries a field named `agent_factory` — a
constructor that, given the shared run-context, produces one worker — and
every attempt obtains its worker by applying this factory to the context:
each `task_started` event's agent is the name of the worker freshly produced
by `agent_factory` at that attempt. -/
theorem worker_from_agent_factory_each_attempt (cfg : Cfg) (cmds : List Cmd)
    (hv : validConfig cfg.tasks cfg.policy = true)
    (i : Nat) (hi : i < cfg.tasks.length) :
    ∀ ts ag n,
      TEvent.task_started ts ((cfg.tasks[i]).id) ag n
          ∈ (execAll cfg cmds).events →
      ag = ((cfg.tasks[i]).agent_factory cfg.ctx).name := by
  obtain ⟨hnd, hmc, hma⟩ := validConfig_unfold cfg.tasks cfg.policy hv
  obtain ⟨hlen, htask⟩ := inv_execAll cfg cmds hnd hma
  have hri : i < (execAll cfg cmds).recs.length := by
    rw [hlen]
    exact hi
  exact (htask i hri hi).agent_eq

/-- Witness for C10: the first attempt of `data_analysis` records agent
`DataAnalyst`, the name of the worker its `agent_factory` produces from the
context. -/
theorem worker_from_agent_factory_each_attempt_witness :
    ("DataAnalyst" : String)
      = ((demoCfg.tasks.get ⟨0, by decide⟩).agent_factory demoCfg.ctx).name :=
  worker_from_agent_factory_each_attempt demoCfg [Cmd.start 0] (by decide)
    0 (by decide) 0 "DataAnalyst" 1 (by decide)

/-- True exactly on `task_started` events. -/
def isStartedEv : TEvent → Bool
  | TEvent.task_started _ _ _ _ => true
  | _ => false

/-- True exactly on `task_finished` events. -/
def isFinishedEv : TEvent → Bool
  | TEvent.task_finished _ _ _ _ _ => true
  | _ => false

/-- The agent names of the `task_started` events, in order. -/
def startedAgents (evs : List TEvent) : List String :=
  evs.filterMap (fun e => match e with
    | TEvent.task_started _ _ ag _ => some ag
    | _ => none)

/-- The agent names of the `task_finished` events, in order. -/
def finishedAgents (evs : List TEvent) : List String :=
  evs.filterMap (fun e => match e with
    | TEvent.task_finished _ _ ag _ _ => some ag
    | _ => none)

/-- An event's timestamp. -/
def eventTs : TEvent → Nat
  | TEvent.task_started ts _ _ _ => ts
  | TEvent.task_finished ts _ _ _ _ => ts
  | TEvent.heartbeat ts _ _ => ts

/-- Modelled from the spec: the events of the bus within the aggregation
window, i.e. those with `ts ≥ now - since`. -/
def windowEvents (bus : List TEvent) (now since : Nat) : List TEvent :=
  bus.filter (fun e => decide (now - since ≤ eventTs e))

/-- Modelled from the spec: the aggregate summary — total event count,
`tasks_started`/`tasks_finished` counts and the active-agent set. -/
structure Summary where
  total_events : Nat
  tasks_started : Nat
  tasks_finished : Nat
  agents_active : List String
deriving DecidableEq, Inhabited

/-- Modelled from the spec: `aggregate(since)` computed over all events with
`ts ≥ now - since`: `tasks_started` counts `task_started` events,
`tasks_finished` counts `task_finished` events, and `agents_active` is the
set of agent names with at least one `task_started` but no matching terminal
`task_finished` within the window. -/
def aggregate (bus : List TEvent) (now since : Nat) : Summary :=
  { total_events := (windowEvents bus now since).length
  , tasks_started := (windowEvents bus now since).countP isStartedEv
  , tasks_finished := (windowEvents bus now since).countP isFinishedEv
  , agents_active := (startedAgents (windowEvents bus now since)).dedup.filter
      (fun a => decide (a ∉ finishedAgents (windowEvents bus now since))) }

/-- The spec's §8 aggregation scenario: a bus holding two `task_started`
events (agents `DataAnalyst` and `CodeReviewer`) and one successful
`task_finished` (agent `DataAnalyst`). -/
def demoBus : List TEvent :=
  [TEvent.task_started 10 "data_analysis" "DataAnalyst" 1,
   TEvent.task_started 20 "code_review" "CodeReviewer" 1,
   TEvent.task_finished 30 "data_analysis" "DataAnalyst" Terminal.success 20]

/-- C9: `aggregate` computes its summary over exactly the events in the
window `ts ≥ now - since`: `tasks_started` and `tasks_finished` are the
number of started/finished events among them, an agent is active iff it has
a `task_started` but no `task_finished` in the window; and on the spec's
scenario bus (2 started, 1 finished with success) the result is
`tasks_started = 2`, `tasks_finished = 1` with the not-yet-finished agent
active. -/
theorem aggregate_window_counts_and_active_agents
    (bus : List TEvent) (now since : Nat) (a : String) :
    ((aggregate bus now since).tasks_started
        = ((bus.filter (fun e => decide (now - since ≤ eventTs e))).filter
            isStartedEv).length)
    ∧ ((aggregate bus now since).tasks_finished
        = ((bus.filter (fun e => decide (now - since ≤ eventTs e))).filter
            isFinishedEv).length)
    ∧ ((aggregate bus now since).total_events
        = (windowEvents bus now since).length)
    ∧ (a ∈ (aggregate bus now since).agents_active ↔
        (a ∈ startedAgents (windowEvents bus now since)
         ∧ a ∉ finishedAgents (windowEvents bus now since)))
    ∧ aggregate demoBus 300 300
        = { total_events := 3, tasks_started := 2, tasks_finished := 1,
            agents_active := ["CodeReviewer"] } := by
  refine ⟨?_, ?_, rfl, ?_, by decide⟩
  · simp [aggregate, windowEvents, List.countP_eq_length_filter]
  · simp [aggregate, windowEvents, List.countP_eq_length_filter]
  · simp only [aggregate, List.mem_filter, List.mem_dedup, decide_eq_true_eq]

end Agency
